import Mathlib

/-!
Shallow embedding of `tools/compare_dacpacs.py`, the dacpac semantic
comparison tool.  XML documents (as produced by `xml.etree.ElementTree`)
are modelled by the inductive `XmlElem`; Python dicts are modelled by
association lists with insert-or-overwrite-in-place semantics; Python
sets are modelled by deduplicated lists.  Python `str`/`repr` rendering
of the values that the tool stringifies is modelled by the `pyStr…` /
`pyRepr…` helpers (Python's `repr` escaping of rare control characters
beyond backslash, quotes, newline, tab and carriage return is not
reproduced; the modelled `repr` is still injective on the values the
tool builds).  File-system access, ZIP extraction and `difflib` output
are outside the comparison core: files are modelled as optional parsed
contents, and only the status part of the text-file comparison is
modelled (its diff lines are report-only and never influence control
flow).
-/

namespace CompareDacpacs

/-- An XML element as seen through `xml.etree.ElementTree`: a tag, an
attribute mapping (insertion-ordered, unique keys), optional text, and a
list of child elements in document order. -/
inductive XmlElem : Type where
  | mk (tag : String) (attrs : List (String × String)) (text : Option String)
      (children : List XmlElem)

namespace XmlElem

def tag : XmlElem → String
  | mk t _ _ _ => t

def attrs : XmlElem → List (String × String)
  | mk _ a _ _ => a

def text : XmlElem → Option String
  | mk _ _ x _ => x

def children : XmlElem → List XmlElem
  | mk _ _ _ cs => cs

end XmlElem

/-- Model of `elem.get(key)`: first-match lookup in the attribute mapping. -/
def getAttr (e : XmlElem) (key : String) : Option String :=
  (e.attrs.find? (fun p => p.1 == key)).map (·.2)

/-- Model of `elem.findall(tag)`: the children with the given tag, in document
order.  Namespace-qualified tags are modelled as plain strings. -/
def childrenTag (e : XmlElem) (t : String) : List XmlElem :=
  e.children.filter (fun c => c.tag == t)

/-- Model of `elem.find(tag)`: the first child with the given tag. -/
def findTag (e : XmlElem) (t : String) : Option XmlElem :=
  (childrenTag e t).head?

theorem mem_childrenTag {c e : XmlElem} {t : String} (h : c ∈ childrenTag e t) :
    c ∈ e.children :=
  List.mem_of_mem_filter h

theorem sizeOf_lt_of_mem_children {c e : XmlElem} (h : c ∈ e.children) :
    sizeOf c < sizeOf e := by
  cases e with
  | mk t a x cs =>
    have hc : sizeOf c < sizeOf cs := List.sizeOf_lt_of_mem h
    simp only [XmlElem.children] at h
    simp only [XmlElem.mk.sizeOf_spec]
    omega

theorem sizeOf_lt_of_mem_childrenTag {c e : XmlElem} {t : String}
    (h : c ∈ childrenTag e t) : sizeOf c < sizeOf e :=
  sizeOf_lt_of_mem_children (mem_childrenTag h)

theorem sizeOf_lt_of_findTag {c e : XmlElem} {t : String}
    (h : findTag e t = some c) : sizeOf c < sizeOf e := by
  have : c ∈ childrenTag e t := by
    unfold findTag at h
    exact List.mem_of_mem_head? h
  exact sizeOf_lt_of_mem_childrenTag this

mutual

/-- An executable structural size, used as recursion fuel where the
kernel must be able to evaluate (the auto-derived `sizeOf` has no
executable code for this nested inductive). -/
def xmlSize : XmlElem → Nat
  | .mk _ _ _ cs => 1 + xmlSizeList cs

def xmlSizeList : List XmlElem → Nat
  | [] => 0
  | c :: cs => xmlSize c + xmlSizeList cs

end



/-! ### Python value rendering -/

/-- Python `str()` of a value that is either a string or `None`
(f-string interpolation). -/
def pyStrOpt : Option String → String
  | none => "None"
  | some s => s

/-- Python truthiness of an optional string: `None` and `""` are falsy. -/
def truthy : Option String → Bool
  | none => false
  | some s => !s.data.isEmpty

def pyEscapeChar (q : Char) (c : Char) : String :=
  if c = '\\' then "\\\\"
  else if c = q then "\\" ++ q.toString
  else if c = '\n' then "\\n"
  else if c = '\t' then "\\t"
  else if c = '\r' then "\\r"
  else c.toString

/-- Python `repr()` of a string: single-quoted unless the string holds a
single quote and no double quote, with backslash/quote/common control
escapes. -/
def pyReprStr (s : String) : String :=
  let q : Char := if s.data.contains '\x27' && !(s.data.contains '"') then '"' else '\x27'
  q.toString ++ String.join (s.data.map (pyEscapeChar q)) ++ q.toString

def pyReprOptStr : Option String → String
  | none => "None"
  | some s => pyReprStr s

/-! ### Python dicts as insertion-ordered association lists -/

section PyDict

variable {K V : Type} [DecidableEq K]

/-- Model of `d[k] = v`: overwrite in place if the key exists, else append. -/
def dictInsert : List (K × V) → K → V → List (K × V)
  | [], k, v => [(k, v)]
  | (k', v') :: rest, k, v =>
      if k' = k then (k', v) :: rest else (k', v') :: dictInsert rest k v

/-- Model of `d.get(k)` (as `Option`): value at the key, if present. -/
def dictGet : List (K × V) → K → Option V
  | [], _ => none
  | (k', v) :: rest, k => if k' = k then some v else dictGet rest k

/-- Model of `k in d`. -/
def dictContains (d : List (K × V)) (k : K) : Bool :=
  (dictGet d k).isSome

/-- Model of `d.pop(k, None)` (result dict): remove the entry at the key. -/
def dictErase : List (K × V) → K → List (K × V)
  | [], _ => []
  | (k', v) :: rest, k => if k' = k then rest else (k', v) :: dictErase rest k

def dictKeys (d : List (K × V)) : List K := d.map (·.1)

/-- Python `d1 == d2` on dicts (order-insensitive: the same keys map to
the same values), phrased over the lookup function so that insertion
order never matters. -/
def pyDictBeq [DecidableEq V] (d1 d2 : List (K × V)) : Bool :=
  d1.all (fun p => dictGet d2 p.1 == dictGet d1 p.1) &&
    d2.all (fun p => dictGet d1 p.1 == dictGet d2 p.1)

end PyDict



/-! ### String comparison (Python `<` on `str`: code-point lexicographic) -/

def charLtB (a b : Char) : Bool := a.toNat < b.toNat

def charsLtB : List Char → List Char → Bool
  | [], [] => false
  | [], _ :: _ => true
  | _ :: _, [] => false
  | a :: as, b :: bs => charLtB a b || (a == b && charsLtB as bs)

/-- Python `a < b` on strings. -/
def strLtB (a b : String) : Bool := charsLtB a.data b.data

/-- Python `a <= b` on strings, as `not (b < a)` (how a stable sort by
`<` orders elements). -/
def strLeB (a b : String) : Bool := !(strLtB b a)



/-! ### Sorting (Python `sorted` / `list.sort`, stable) -/

/-- Python `sorted` with a boolean "less or equal" test (a stable
insertion sort, matching Python's stable sort). -/
def sortByBool {α : Type} (le : α → α → Bool) (l : List α) : List α :=
  List.insertionSort (fun a b => le a b = true) l

/-- Python `sorted` on strings. -/
def sortStr (l : List String) : List String :=
  sortByBool strLeB l



/-- Comparison of `Optional[str]` values as they occur in sorted
containers (`None` ordered first; real Python raises on mixed
`None`/`str` comparisons, which the tool never performs on well-formed
documents). -/
def optStrLt : Option String → Option String → Bool
  | none, none => false
  | none, some _ => true
  | some _, none => false
  | some a, some b => strLtB a b

def optStrLe (p q : Option String) : Bool := !(optStrLt q p)



/-! ### Namespace stripping and the canonicalizer

All element lookups in the source are performed with the fixed
namespace-qualified tag `f"{NS_BRACKET}Tag"`.  Since tags are opaque
strings, the model stores tags unqualified and performs lookups with the
bare tag name; `strip_ns` is kept faithful to the source (it strips the
qualifier when present and is the identity otherwise). -/

def NS : String := "http://schemas.microsoft.com/sqlserver/dac/Serialization/2012/02"

def NS_BRACKET : String := "\x7b" ++ NS ++ "\x7d"

/-- The Unicode whitespace set of Python `str.isspace` (what `strip` and
`rstrip` remove by default). -/
def pyIsSpace (c : Char) : Bool :=
  let n := c.toNat
  (9 ≤ n && n ≤ 13) || (28 ≤ n && n ≤ 32) || n == 133 || n == 160 ||
    n == 5760 || (8192 ≤ n && n ≤ 8202) || n == 8232 || n == 8233 ||
    n == 8239 || n == 8287 || n == 12288

/-- Model of Python `str.strip()` (also `(… or "").strip()` on optional text). -/
def pyStrip (s : String) : String :=
  ⟨((s.data.dropWhile pyIsSpace).reverse.dropWhile pyIsSpace).reverse⟩

/-- Model of `strip_ns`: remove the MS namespace from an XML tag. -/
def strip_ns (tag : String) : String :=
  if NS_BRACKET.data.isPrefixOf tag.data then ⟨tag.data.drop NS_BRACKET.data.length⟩
  else tag

/-- Model of `xml_to_canonical`: tag, `key=value` per attribute in ascending key
order, then `text=<trimmed>` when non-empty, joined by `|`. -/
def xml_to_canonical (e : XmlElem) : String :=
  let attrParts := (sortStr (dictKeys e.attrs)).map
    (fun k => k ++ "=" ++ pyStrOpt (getAttr e k))
  let text := pyStrip (e.text.getD "")
  let textParts := if text.data.isEmpty then [] else ["text=" ++ text]
  String.intercalate "|" (strip_ns e.tag :: (attrParts ++ textParts))

/-- Model of `flatten` (inner function of `compare_simple_xml`), with a
structural fuel argument so that the kernel can evaluate it; `flatten`
below instantiates the fuel with `sizeOf`, which `flatten_eq` proves
sufficient (the `0` branch is never reached). -/
def flattenFuel : Nat → XmlElem → String → List (String × String)
  | 0, _, _ => []
  | fuel + 1, e, path =>
    let current := path ++ "/" ++ strip_ns e.tag
    (current, xml_to_canonical e) ::
      ((sortByBool (fun a b => strLeB (xml_to_canonical a) (xml_to_canonical b))
          e.children).flatMap
        (fun c => flattenFuel fuel c current))

/-- Model of `flatten`: flatten an XML tree to `(path, canonical_string)` pairs,
visiting children sorted by their own canonical string (Python `sorted`
is stable). -/
def flatten (e : XmlElem) (path : String) : List (String × String) :=
  flattenFuel (xmlSize e) e path







/-- Per-artifact comparison status, as the source's status strings. -/
inductive Status : Type where
  | ok
  | different
  | missing_in_rust
  | missing_in_dotnet
deriving DecidableEq

/-- Model of `compare_simple_xml`, on parsed contents (`none` = file absent):
only the status is modelled; the diff lines are report-only. -/
def compare_simple_xml : Option XmlElem → Option XmlElem → Option Status
  | none, none => none
  | none, some _ => some .missing_in_rust
  | some _, none => some .missing_in_dotnet
  | some a, some b =>
      if flatten a "" = flatten b "" then some .ok else some .different

/-- Model of the XPath lookup in `get_ref_name`: the first child with
tag `Relationship` whose `Name` attribute matches. -/
def findRelByName (e : XmlElem) (relName : String) : Option XmlElem :=
  (e.children.filter
    (fun c => c.tag == "Relationship" && getAttr c "Name" == some relName)).head?

/-- Model of `get_ref_name`: the `Name` attribute of the first `References` of the
first `Entry` of a named `Relationship`. -/
def get_ref_name (rel_elem : XmlElem) (rel_name : String) : Option String :=
  match findRelByName rel_elem rel_name with
  | none => none
  | some rel =>
    match findTag rel "Entry" with
    | none => none
    | some entry =>
      match findTag entry "References" with
      | some ref => getAttr ref "Name"
      | none => none

/-- A model element's identity key: Python's 1- or 2-tuple. -/
inductive ElementKey : Type where
  | single (t : Option String)
  | pair (t : Option String) (disc : String)
deriving DecidableEq

/-- Model of `element_key`: named elements `(Type, Name)`; unnamed elements a
composite from resolved `DefiningTable`/`ForColumn`/`DefiningColumn`
targets (Python truthiness on the resolved names); else `(Type,)`. -/
def element_key (e : XmlElem) : ElementKey :=
  let elem_type := getAttr e "Type"
  match getAttr e "Name" with
  | some name => .pair elem_type name
  | none =>
    let defining_table := get_ref_name e "DefiningTable"
    let for_column := get_ref_name e "ForColumn"
    let defining_column := get_ref_name e "DefiningColumn"
    if truthy defining_table && truthy for_column then
      .pair elem_type
        ("DefiningTable=" ++ pyStrOpt defining_table ++ ",ForColumn=" ++ pyStrOpt for_column)
    else if truthy defining_table && truthy defining_column then
      .pair elem_type
        ("DefiningTable=" ++ pyStrOpt defining_table ++ ",DefiningColumn=" ++ pyStrOpt defining_column)
    else if truthy defining_table then
      .pair elem_type ("DefiningTable=" ++ pyStrOpt defining_table)
    else
      .single elem_type

/-- Model of `element_display_key`. -/
def element_display_key : ElementKey → String
  | .single t => pyStrOpt t
  | .pair t d => pyStrOpt t ++ " " ++ d

/-! ### Properties -/

/-- Value extraction for one `Property` node: the `Value` attribute, else
the trimmed text of a `Value` child, else `None`. -/
def propValue (prop : XmlElem) : Option String :=
  match getAttr prop "Value" with
  | some v => some v
  | none =>
    match findTag prop "Value" with
    | some val_elem => some (pyStrip (val_elem.text.getD ""))
    | none => none

/-- Model of `get_properties`: properties as a dict `Name -> value`. -/
def get_properties (e : XmlElem) : List (Option String × Option String) :=
  (childrenTag e "Property").foldl
    (fun props prop => dictInsert props (getAttr prop "Name") (propValue prop)) []

/-- Python `d.get(k)` on a dict whose values are already optional: a
missing key and a `None` value are indistinguishable. -/
def pyGet (d : List (Option String × Option String)) (k : Option String) : Option String :=
  (dictGet d k).join

/-! ### Fingerprint engine -/

/-- Python `str(dict)` for a property dict (insertion order preserved). -/
def pyReprPropsDict (d : List (Option String × Option String)) : String :=
  "\x7b" ++
    String.intercalate ", " (d.map (fun p => pyReprOptStr p.1 ++ ": " ++ pyReprOptStr p.2)) ++
  "\x7d"

/-- One `A:{ann_type}={ann_props}` part of an inline fingerprint, with
the `Disambiguator` property popped. -/
def annPartOf (ann : XmlElem) : String :=
  "A:" ++ (getAttr ann "Type").getD "" ++ "=" ++
    pyReprPropsDict (dictErase (get_properties ann) (some "Disambiguator"))

/-- The `ref_key` of a `References` node: `Name` (default `""`), with
`@ExternalSource` appended when that attribute is truthy. -/
def refKeyOf (ref : XmlElem) : String :=
  let ref_key := (getAttr ref "Name").getD ""
  let ext := getAttr ref "ExternalSource"
  if truthy ext then ref_key ++ "@" ++ pyStrOpt ext else ref_key

/-- The `P:{name}={value}` parts of an inline fingerprint, in document
order (sorted by the caller). -/
def prop_parts_of (e : XmlElem) : List String :=
  (childrenTag e "Property").map
    (fun prop => "P:" ++ pyStrOpt (getAttr prop "Name") ++ "=" ++ pyStrOpt (propValue prop))

/-- The `A:…` parts of an inline fingerprint, in document order. -/
def ann_parts_of (e : XmlElem) : List String :=
  (childrenTag e "AttachedAnnotation").map annPartOf

/-- Model of `inline_element_fingerprint`: type, sorted `P:` parts, sorted `R:`
parts (nested inline entries recurse in parentheses), sorted `A:` parts,
joined by `|`. -/
def inline_element_fingerprint (e : XmlElem) : String :=
  let type_part := (getAttr e "Type").getD ""
  let prop_parts := sortStr (prop_parts_of e)
  let rel_parts := sortStr
    ((childrenTag e "Relationship").attach.flatMap (fun rel =>
      (childrenTag rel.val "Entry").attach.flatMap (fun entry =>
        match childrenTag entry.val "References" with
        | ref :: _ =>
            ["R:" ++ pyStrOpt (getAttr rel.val "Name") ++ "=" ++ refKeyOf ref]
        | [] =>
            match h : childrenTag entry.val "Element" with
            | inner :: _ =>
                ["R:" ++ pyStrOpt (getAttr rel.val "Name") ++ "=(" ++
                  inline_element_fingerprint inner ++ ")"]
            | [] => [])))
  let ann_parts := sortStr (ann_parts_of e)
  String.intercalate "|" (type_part :: (prop_parts ++ rel_parts ++ ann_parts))
termination_by sizeOf e
decreasing_by
  have h1 : inner ∈ childrenTag entry.val "Element" := by
    rw [h]; exact List.mem_cons_self _ _
  exact Nat.lt_trans
    (Nat.lt_trans (sizeOf_lt_of_mem_childrenTag h1) (sizeOf_lt_of_mem_childrenTag entry.2))
    (sizeOf_lt_of_mem_childrenTag rel.2)

/-- The `R:…` parts of an inline fingerprint, in document order (the
`attach` bookkeeping mirrors the recursive definition and is
proof-only). -/
def rel_parts_of (e : XmlElem) : List String :=
  (childrenTag e "Relationship").attach.flatMap (fun rel =>
    (childrenTag rel.val "Entry").attach.flatMap (fun entry =>
      match childrenTag entry.val "References" with
      | ref :: _ =>
          ["R:" ++ pyStrOpt (getAttr rel.val "Name") ++ "=" ++ refKeyOf ref]
      | [] =>
          match _h : childrenTag entry.val "Element" with
          | inner :: _ =>
              ["R:" ++ pyStrOpt (getAttr rel.val "Name") ++ "=(" ++
                inline_element_fingerprint inner ++ ")"]
          | [] => []))



/-! ### Relationships -/

/-- A relationship entry: Python's `("ref", key)` / `("inline", fp)`. -/
inductive RelEntry : Type where
  | ref (key : String)
  | inline (fp : String)
deriving DecidableEq

/-- Python `str()` of an entry tuple. -/
def entryStr : RelEntry → String
  | .ref k => "(\x27ref\x27, " ++ pyReprStr k ++ ")"
  | .inline fp => "(\x27inline\x27, " ++ pyReprStr fp ++ ")"

/-- The entry list of one `Relationship` node: references by key,
inline elements by fingerprint, other entries skipped. -/
def entriesOf (rel : XmlElem) : List RelEntry :=
  (childrenTag rel "Entry").flatMap (fun entry =>
    match childrenTag entry "References" with
    | ref :: _ => [RelEntry.ref (refKeyOf ref)]
    | [] =>
      match childrenTag entry "Element" with
      | inline :: _ => [RelEntry.inline (inline_element_fingerprint inline)]
      | [] => [])

/-- Model of `get_relationships`: dict `Name -> entry list`. -/
def get_relationships (e : XmlElem) : List (Option String × List RelEntry) :=
  (childrenTag e "Relationship").foldl
    (fun rels rel => dictInsert rels (getAttr rel "Name") (entriesOf rel)) []

/-! ### Annotations -/

/-- The `(type, sorted properties)` tuple of `get_annotations`. -/
abbrev AnnTuple : Type := String × List (Option String × Option String)

/-- Python `<` on `(Optional[str], Optional[str])` tuples. -/
def pairOptLt (p q : Option String × Option String) : Bool :=
  optStrLt p.1 q.1 || (decide (p.1 = q.1) && optStrLt p.2 q.2)

def pairOptLe (p q : Option String × Option String) : Bool :=
  !(pairOptLt q p)

/-- Python `<` on lists of such tuples (lexicographic). -/
def listPairLt : List (Option String × Option String) →
    List (Option String × Option String) → Bool
  | [], [] => false
  | [], _ :: _ => true
  | _ :: _, [] => false
  | p :: ps, q :: qs => pairOptLt p q || (decide (p = q) && listPairLt ps qs)

/-- Python `<` on annotation tuples. -/
def annLt (x y : AnnTuple) : Bool :=
  strLtB x.1 y.1 || (decide (x.1 = y.1) && listPairLt x.2 y.2)

def annLe (x y : AnnTuple) : Bool :=
  !(annLt y x)

/-- One annotation as `get_annotations` records it: type (default `""`)
and sorted property items with `Disambiguator` popped. -/
def ann_tuple (ann : XmlElem) : AnnTuple :=
  ((getAttr ann "Type").getD "",
    sortByBool pairOptLe (dictErase (get_properties ann) (some "Disambiguator")))

/-- Model of `get_annotations`: the annotation tuples, sorted. -/
def get_annotations (e : XmlElem) : List AnnTuple :=
  sortByBool annLe ((childrenTag e "AttachedAnnotation").map ann_tuple)

/-- Python `str()` of an annotation tuple. -/
def ann_tuple_str (a : AnnTuple) : String :=
  "(" ++ pyReprStr a.1 ++ ", [" ++
    String.intercalate ", "
      (a.2.map (fun p => "(" ++ pyReprOptStr p.1 ++ ", " ++ pyReprOptStr p.2 ++ ")")) ++
  "])"

/-! ### Element differ -/

/-- Python `sorted(set(ka) | set(kb))` on optional-string keys. -/
def sortedOptStrUnion (ka kb : List (Option String)) : List (Option String) :=
  sortByBool optStrLe ((ka ++ kb).dedup)

/-- The property-phase lines of `diff_element` for one property name. -/
def prop_diff_lines_for (props_a props_b : List (Option String × Option String))
    (name : Option String) : List String :=
  let val_a := pyGet props_a name
  let val_b := pyGet props_b name
  if val_a = val_b then []
  else if dictContains props_b name = false then
    ["    Property \"" ++ pyStrOpt name ++ "\": missing in dotnet, rust=\"" ++
      pyStrOpt val_a ++ "\""]
  else if dictContains props_a name = false then
    ["    Property \"" ++ pyStrOpt name ++ "\": dotnet=\"" ++ pyStrOpt val_b ++
      "\", missing in rust"]
  else
    ["    Property \"" ++ pyStrOpt name ++ "\": dotnet=\"" ++ pyStrOpt val_b ++
      "\", rust=\"" ++ pyStrOpt val_a ++ "\""]

def prop_phase (elem_a elem_b : XmlElem) : List String :=
  let props_a := get_properties elem_a
  let props_b := get_properties elem_b
  (sortedOptStrUnion (dictKeys props_a) (dictKeys props_b)).flatMap
    (prop_diff_lines_for props_a props_b)

/-- The relationship-phase lines of `diff_element` for one name: on both
sides, entry lists are reduced to the set of their string forms and
compared by set difference. -/
def rel_diff_lines_for (rels_a rels_b : List (Option String × List RelEntry))
    (name : Option String) : List String :=
  let entries_a := (dictGet rels_a name).getD []
  let entries_b := (dictGet rels_b name).getD []
  if entries_a = entries_b then []
  else if dictContains rels_b name = false then
    ["    Relationship \"" ++ pyStrOpt name ++ "\": missing in dotnet, rust has " ++
      toString entries_a.length ++ " entries"]
  else if dictContains rels_a name = false then
    ["    Relationship \"" ++ pyStrOpt name ++ "\": dotnet has " ++
      toString entries_b.length ++ " entries, missing in rust"]
  else
    let set_a := (entries_a.map entryStr).dedup
    let set_b := (entries_b.map entryStr).dedup
    let only_rust := set_a.filter (fun s => decide (s ∉ set_b))
    let only_dotnet := set_b.filter (fun s => decide (s ∉ set_a))
    if !only_rust.isEmpty || !only_dotnet.isEmpty then
      ["    Relationship \"" ++ pyStrOpt name ++ "\": " ++
        toString only_dotnet.length ++ " only in dotnet, " ++
        toString only_rust.length ++ " only in rust"]
    else []

def rel_phase (elem_a elem_b : XmlElem) : List String :=
  let rels_a := get_relationships elem_a
  let rels_b := get_relationships elem_b
  (sortedOptStrUnion (dictKeys rels_a) (dictKeys rels_b)).flatMap
    (rel_diff_lines_for rels_a rels_b)

/-- The annotation-phase lines of `diff_element`: sorted-list equality
check, then set difference on string forms; on a non-empty set
difference, one line per affected type whose per-type sublists differ,
with a count note when the cardinalities differ. -/
def ann_phase (elem_a elem_b : XmlElem) : List String :=
  let anns_a := get_annotations elem_a
  let anns_b := get_annotations elem_b
  if anns_a = anns_b then []
  else
    let set_a := (anns_a.map ann_tuple_str).dedup
    let set_b := (anns_b.map ann_tuple_str).dedup
    let only_rust := set_a.filter (fun s => decide (s ∉ set_b))
    let only_dotnet := set_b.filter (fun s => decide (s ∉ set_a))
    if !only_rust.isEmpty || !only_dotnet.isEmpty then
      let types_affected := sortStr (((anns_a ++ anns_b).map (·.1)).dedup)
      types_affected.flatMap (fun ann_type =>
        let rust_of_type := anns_a.filter (fun a => a.1 == ann_type)
        let dotnet_of_type := anns_b.filter (fun a => a.1 == ann_type)
        if rust_of_type ≠ dotnet_of_type then
          let count_info :=
            if rust_of_type.length ≠ dotnet_of_type.length then
              " (rust=" ++ toString rust_of_type.length ++ ", dotnet=" ++
                toString dotnet_of_type.length ++ ")"
            else ""
          ["    Annotation \"" ++ ann_type ++ "\": differs" ++ count_info]
        else [])
    else []

/-- Model of `diff_element`: the three phases' outputs, concatenated. -/
def diff_element (elem_a elem_b : XmlElem) : List String :=
  prop_phase elem_a elem_b ++ rel_phase elem_a elem_b ++ ann_phase elem_a elem_b

/-! ### Header differ -/

/-- Model of `index_custom_data`: dict `(Category, Type) -> (Metadata Name -> Value)`. -/
def index_custom_data : Option XmlElem → List ((String × String) × List (String × String))
  | none => []
  | some header =>
    (childrenTag header "CustomData").foldl
      (fun result cd =>
        let key := ((getAttr cd "Category").getD "", (getAttr cd "Type").getD "")
        let metas := (childrenTag cd "Metadata").foldl
          (fun metas m =>
            dictInsert metas ((getAttr m "Name").getD "") ((getAttr m "Value").getD "")) []
        dictInsert result key metas) []

/-- Python `<` on `(str, str)` tuples. -/
def pairStrLt (p q : String × String) : Bool :=
  strLtB p.1 q.1 || (decide (p.1 = q.1) && strLtB p.2 q.2)

def pairStrLe (p q : String × String) : Bool :=
  !(pairStrLt q p)

/-- The `compare_header` lines contributed by one `(Category, Type)` key. -/
def header_diff_lines_for
    (cd_a cd_b : List ((String × String) × List (String × String)))
    (key : String × String) : List String :=
  let label :=
    if key.2 ≠ "" then "CustomData(" ++ key.1 ++ ", " ++ key.2 ++ ")"
    else "CustomData(" ++ key.1 ++ ")"
  if dictContains cd_b key = false then ["  " ++ label ++ ": missing in dotnet"]
  else if dictContains cd_a key = false then ["  " ++ label ++ ": missing in rust"]
  else
    match dictGet cd_a key, dictGet cd_b key with
    | some ma, some mb =>
      if !(pyDictBeq ma mb) then
        ("  " ++ label ++ ":") ::
          (sortStr ((dictKeys ma ++ dictKeys mb).dedup)).flatMap (fun mkey =>
            let va := dictGet ma mkey
            let vb := dictGet mb mkey
            if va ≠ vb then
              ["    " ++ mkey ++ ": dotnet=\"" ++ pyStrOpt vb ++ "\", rust=\"" ++
                pyStrOpt va ++ "\""]
            else [])
      else []
    | _, _ => []

/-- Model of `compare_header`. -/
def compare_header (header_a header_b : Option XmlElem) : Status × List String :=
  let cd_a := index_custom_data header_a
  let cd_b := index_custom_data header_b
  let all_keys := sortByBool pairStrLe ((dictKeys cd_a ++ dictKeys cd_b).dedup)
  let diffs := all_keys.flatMap (header_diff_lines_for cd_a cd_b)
  if diffs.isEmpty then (.ok, []) else (.different, diffs)

/-! ### Model differ -/

/-- Model of `index_elements` loop with explicit accumulators: index elements by
key (last write wins) and record duplicate keys. -/
def index_elements_go (index : List (ElementKey × XmlElem)) (duplicates : List ElementKey) :
    List XmlElem → List (ElementKey × XmlElem) × List ElementKey
  | [] => (index, duplicates)
  | elem :: rest =>
    let key := element_key elem
    index_elements_go (dictInsert index key elem)
      (if dictContains index key then duplicates ++ [key] else duplicates) rest

def index_elements (elems : List XmlElem) : List (ElementKey × XmlElem) × List ElementKey :=
  index_elements_go [] [] elems

def keyDispLe (k1 k2 : ElementKey) : Bool :=
  strLeB (element_display_key k1) (element_display_key k2)

structure ElementsResults : Type where
  missing_in_rust : List ElementKey
  extra_in_rust : List ElementKey
  differences : List (ElementKey × List String)
  total_rust : Nat
  total_dotnet : Nat
deriving DecidableEq

/-- The `elements` part of `compare_model_xml`, as a function of the two
key indexes. -/
def elements_results (elems_a elems_b : List (ElementKey × XmlElem)) : ElementsResults :=
  let keys_a := dictKeys elems_a
  let keys_b := dictKeys elems_b
  let missing := sortByBool keyDispLe (keys_b.filter (fun k => decide (k ∉ keys_a)))
  let extra := sortByBool keyDispLe (keys_a.filter (fun k => decide (k ∉ keys_b)))
  let common := sortByBool keyDispLe (keys_a.filter (fun k => decide (k ∈ keys_b)))
  let differences := common.flatMap (fun key =>
    match dictGet elems_a key, dictGet elems_b key with
    | some ea, some eb =>
      let diffs := diff_element ea eb
      if diffs.isEmpty then [] else [(key, diffs)]
    | _, _ => [])
  { missing_in_rust := missing
    extra_in_rust := extra
    differences := differences
    total_rust := elems_a.length
    total_dotnet := elems_b.length }

structure ModelResults : Type where
  header : Status × List String
  elements : ElementsResults
deriving DecidableEq

/-- The `Element` children of the `Model` section.  `none` models the
source's uncaught error on a document without a `Model` section:
`root.find` returns `None` there and `None.findall` raises an
`AttributeError` that nothing catches. -/
def modelElemsOf (root : XmlElem) : Option (List XmlElem) :=
  match findTag root "Model" with
  | some model => some (childrenTag model "Element")
  | none => none

/-- Model of `compare_model_xml` on parsed roots; `none` is the
propagated `AttributeError` on a side without a `Model` section.  The
duplicate-key lists flow only to the diagnostic stream, modelled by
`stderr_warning_lines`. -/
def compare_model_xml (root_a root_b : XmlElem) : Option ModelResults :=
  match modelElemsOf root_a, modelElemsOf root_b with
  | some ea, some eb =>
    some
      { header := compare_header (findTag root_a "Header") (findTag root_b "Header")
        elements := elements_results (index_elements ea).1 (index_elements eb).1 }
  | _, _ => none

def dupes_of (root : XmlElem) : Option (List ElementKey) :=
  (modelElemsOf root).map (fun es => (index_elements es).2)

/-- The duplicate-key warnings printed to stderr (first five keys shown). -/
def stderr_warning_lines (dupes_a dupes_b : List ElementKey) : List String :=
  (if !dupes_a.isEmpty then
    ("WARNING: " ++ toString dupes_a.length ++ " duplicate keys in rust model.xml") ::
      (dupes_a.take 5).map (fun d => "  " ++ element_display_key d)
  else []) ++
  (if !dupes_b.isEmpty then
    ("WARNING: " ++ toString dupes_b.length ++ " duplicate keys in dotnet model.xml") ::
      (dupes_b.take 5).map (fun d => "  " ++ element_display_key d)
  else [])

/-! ### Report aggregator and exit code -/

/-- The `has_diffs` verdict of `main` (lines 586-599): any non-`ok`
status of a tracked artifact other than `Origin.xml`, or a non-`ok`
header, or non-empty missing/extra/difference lists. -/
def has_diffs (fr : List (String × Status)) (mr : Option ModelResults) : Bool :=
  fr.any (fun p => decide (p.1 ≠ "Origin.xml" ∧ p.2 ≠ Status.ok)) ||
  (match mr with
  | none => false
  | some r =>
    decide (r.header.1 ≠ Status.ok ∨ r.elements.missing_in_rust ≠ [] ∨
      r.elements.extra_in_rust ≠ [] ∨ r.elements.differences ≠ []))

/-- Model of `sys.exit(1 if has_diffs else 0)`. -/
def exit_code (fr : List (String × Status)) (mr : Option ModelResults) : Nat :=
  if has_diffs fr mr then 1 else 0

/-- Claim C1's notion of a relationship target "resolving" (written from
the spec's words, to be compared with `element_key`): the named
relationship is looked up, its first `Entry` taken, and the
`References`' `Name` read; the resolved name must be usable in a key,
i.e. present and non-empty (the code's Python-truthiness test). -/
def resolvedRefSpec (e : XmlElem) (relName : String) : Option String :=
  match get_ref_name e relName with
  | some s => if s.data.isEmpty then none else some s
  | none => none

/-- The annotation report as claim C5 describes it: one line per
annotation type (sorted) whose per-type sublists differ, with a
count-mismatch note when the two sides hold different numbers of
annotations of that type. -/
def ann_report_spec (anns_a anns_b : List AnnTuple) : List String :=
  (sortStr (((anns_a ++ anns_b).map (·.1)).dedup)).flatMap (fun ann_type =>
    let rust_of_type := anns_a.filter (fun a => a.1 == ann_type)
    let dotnet_of_type := anns_b.filter (fun a => a.1 == ann_type)
    if rust_of_type ≠ dotnet_of_type then
      let count_info :=
        if rust_of_type.length ≠ dotnet_of_type.length then
          " (rust=" ++ toString rust_of_type.length ++ ", dotnet=" ++
            toString dotnet_of_type.length ++ ")"
        else ""
      ["    Annotation \"" ++ ann_type ++ "\": differs" ++ count_info]
    else [])

/-- Two annotation nodes that are identical except for the value or
presence of the `Disambiguator` property: same type attribute and the
same property dict once `Disambiguator` is popped. -/
def sameExceptDisambiguator (a1 a2 : XmlElem) : Prop :=
  (getAttr a1 "Type").getD "" = (getAttr a2 "Type").getD "" ∧
  dictErase (get_properties a1) (some "Disambiguator") =
    dictErase (get_properties a2) (some "Disambiguator")

/-! ## General lemmas -/

section PyDictLemmas

variable {K V : Type} [DecidableEq K]

theorem dictGet_insert_self (d : List (K × V)) (k : K) (v : V) :
    dictGet (dictInsert d k v) k = some v := by
  induction d with
  | nil => simp [dictInsert, dictGet]
  | cons p rest ih =>
    by_cases h : p.1 = k
    · simp [dictInsert, dictGet, h]
    · simp [dictInsert, dictGet, h, ih]

theorem dictGet_insert_ne (d : List (K × V)) (k k' : K) (v : V) (h : k' ≠ k) :
    dictGet (dictInsert d k' v) k = dictGet d k := by
  induction d with
  | nil => simp [dictInsert, dictGet, h]
  | cons p rest ih =>
    by_cases hp : p.1 = k'
    · simp [dictInsert, dictGet, hp, h]
    · simp only [dictInsert, hp, if_false]
      by_cases hk : p.1 = k
      · simp [dictGet, hk]
      · simp [dictGet, hk, ih]

end PyDictLemmas

theorem charsLtB_asymm : ∀ {a b : List Char},
    charsLtB a b = true → charsLtB b a = false
  | [], [], h => by simp [charsLtB] at h
  | [], _ :: _, _ => by simp [charsLtB]
  | _ :: _, [], h => by simp [charsLtB] at h
  | a :: as, b :: bs, h => by
    simp only [charsLtB, Bool.or_eq_true, Bool.and_eq_true, beq_iff_eq] at h ⊢
    simp only [Bool.or_eq_false_iff, Bool.and_eq_false_iff]
    rcases h with h | ⟨rfl, h⟩
    · unfold charLtB at h ⊢
      simp only [decide_eq_true_eq] at h
      constructor
      · simp only [decide_eq_false_iff_not]
        omega
      · left
        simp only [beq_eq_false_iff_ne, ne_eq]
        intro hba
        subst hba
        omega
    · constructor
      · simp [charLtB]
      · right
        exact charsLtB_asymm h

theorem charsLtB_trans : ∀ {a b c : List Char},
    charsLtB a b = true → charsLtB b c = true → charsLtB a c = true
  | [], [], _, h, _ => by simp [charsLtB] at h
  | [], _ :: _, [], _, h => by simp [charsLtB] at h
  | [], _ :: _, _ :: _, _, _ => by simp [charsLtB]
  | _ :: _, [], _, h, _ => by simp [charsLtB] at h
  | _ :: _, _ :: _, [], _, h => by simp [charsLtB] at h
  | a :: as, b :: bs, c :: cs, h1, h2 => by
    simp only [charsLtB, Bool.or_eq_true, Bool.and_eq_true, beq_iff_eq] at h1 h2 ⊢
    rcases h1 with h1 | ⟨rfl, h1⟩ <;> rcases h2 with h2 | ⟨rfl, h2⟩
    · left; unfold charLtB at h1 h2 ⊢
      simp only [decide_eq_true_eq] at h1 h2 ⊢
      omega
    · left; exact h1
    · left; exact h2
    · right; exact ⟨rfl, charsLtB_trans h1 h2⟩

theorem charsLtB_trichotomy : ∀ (a b : List Char),
    charsLtB a b = true ∨ a = b ∨ charsLtB b a = true
  | [], [] => Or.inr (Or.inl rfl)
  | [], _ :: _ => Or.inl (by simp [charsLtB])
  | _ :: _, [] => Or.inr (Or.inr (by simp [charsLtB]))
  | a :: as, b :: bs => by
    by_cases hab : a = b
    · subst hab
      rcases charsLtB_trichotomy as bs with h | h | h
      · exact Or.inl (by simp [charsLtB, h])
      · exact Or.inr (Or.inl (by rw [h]))
      · exact Or.inr (Or.inr (by simp [charsLtB, h]))
    · have : a.toNat < b.toNat ∨ b.toNat < a.toNat := by
        have : a.toNat ≠ b.toNat := by
          intro h
          exact hab (Char.ext (UInt32.ext (by simpa [Char.toNat] using h)))
        omega
      rcases this with h | h
      · exact Or.inl (by simp [charsLtB, charLtB, h])
      · exact Or.inr (Or.inr (by simp [charsLtB, charLtB, h]))

theorem strLeB_total (a b : String) : strLeB a b = true ∨ strLeB b a = true := by
  unfold strLeB strLtB
  rcases charsLtB_trichotomy a.data b.data with h | h | h
  · left; simp [charsLtB_asymm h]
  · left; rw [h]
    cases hcb : charsLtB b.data b.data with
    | false => simp
    | true => simp [charsLtB_asymm hcb] at hcb
  · right; simp [charsLtB_asymm h]

theorem strLeB_trans {a b c : String} (h1 : strLeB a b = true)
    (h2 : strLeB b c = true) : strLeB a c = true := by
  unfold strLeB strLtB at h1 h2 ⊢
  simp only [Bool.not_eq_true', Bool.not_eq_true] at h1 h2 ⊢
  cases hca : charsLtB c.data a.data with
  | false => rfl
  | true =>
    exfalso
    rcases charsLtB_trichotomy b.data c.data with h | h | h
    · have := charsLtB_trans h hca
      rw [this] at h1; cases h1
    · rw [h] at h1; rw [h1] at hca; cases hca
    · rw [h] at h2; cases h2

theorem strLeB_antisymm {a b : String} (h1 : strLeB a b = true)
    (h2 : strLeB b a = true) : a = b := by
  unfold strLeB strLtB at h1 h2
  simp only [Bool.not_eq_true', Bool.not_eq_true] at h1 h2
  rcases charsLtB_trichotomy a.data b.data with h | h | h
  · rw [h] at h2; cases h2
  · cases a; cases b; exact congrArg String.mk (by simpa using h)
  · rw [h] at h1; cases h1

theorem sortStr_perm (l : List String) : List.Perm (sortStr l) l :=
  List.perm_insertionSort _ l

/-- Sorting by a total order identifies permutation-equal string lists. -/
theorem sortStr_eq_of_perm {l₁ l₂ : List String} (h : List.Perm l₁ l₂) :
    sortStr l₁ = sortStr l₂ := by
  haveI : IsTotal String (fun a b => strLeB a b = true) := ⟨strLeB_total⟩
  haveI : IsTrans String (fun a b => strLeB a b = true) :=
    ⟨fun _ _ _ => strLeB_trans⟩
  haveI : IsAntisymm String (fun a b => strLeB a b = true) :=
    ⟨fun _ _ => strLeB_antisymm⟩
  apply List.eq_of_perm_of_sorted (r := fun a b : String => strLeB a b = true)
  · exact (sortStr_perm l₁).trans (h.trans (sortStr_perm l₂).symm)
  · exact List.sorted_insertionSort _ l₁
  · exact List.sorted_insertionSort _ l₂

theorem mem_sortByBool {α : Type} {le : α → α → Bool} {l : List α} {x : α} :
    x ∈ sortByBool le l ↔ x ∈ l :=
  (List.perm_insertionSort _ l).mem_iff

theorem xmlSize_pos (e : XmlElem) : 0 < xmlSize e := by
  cases e with
  | mk t a x cs => simp only [xmlSize]; omega

theorem xmlSize_lt_of_mem_childList : ∀ {c : XmlElem} {cs : List XmlElem},
    c ∈ cs → xmlSize c < 1 + xmlSizeList cs := by
  intro c cs h
  induction cs with
  | nil => cases h
  | cons a t ih =>
    rcases List.mem_cons.mp h with rfl | h
    · simp only [xmlSizeList]; omega
    · have := ih h; simp only [xmlSizeList]; omega

theorem xmlSize_lt_of_mem_children {c e : XmlElem} (h : c ∈ e.children) :
    xmlSize c < xmlSize e := by
  cases e with
  | mk t a x cs =>
    simp only [XmlElem.children] at h
    simpa only [xmlSize] using xmlSize_lt_of_mem_childList h

theorem flatMap_congr_mem {α β : Type} {l : List α} {f g : α → List β}
    (h : ∀ a ∈ l, f a = g a) : l.flatMap f = l.flatMap g := by
  induction l with
  | nil => rfl
  | cons a t ih =>
    simp only [List.flatMap_cons]
    rw [h a (List.mem_cons_self a t),
      ih (fun x hx => h x (List.mem_cons_of_mem a hx))]

/-- Any sufficient fuel computes `flatten`, so the `0` branch of
`flattenFuel` is never reached. -/
theorem flattenFuel_eq_flatten : ∀ (fuel : Nat) (e : XmlElem) (path : String),
    xmlSize e ≤ fuel → flattenFuel fuel e path = flatten e path := by
  intro fuel
  induction fuel using Nat.strong_induction_on with
  | _ fuel ih =>
    intro e path hle
    have hpos : 0 < xmlSize e := xmlSize_pos e
    obtain ⟨f, rfl⟩ : ∃ f, fuel = f + 1 := ⟨fuel - 1, by omega⟩
    obtain ⟨s, hs⟩ : ∃ s, xmlSize e = s + 1 := ⟨xmlSize e - 1, by omega⟩
    unfold flatten
    rw [hs]
    simp only [flattenFuel]
    congr 1
    apply flatMap_congr_mem
    intro c hc
    have hcsz : xmlSize c < xmlSize e :=
      xmlSize_lt_of_mem_children (mem_sortByBool.mp hc)
    rw [ih f (by omega) c _ (by omega), ih s (by omega) c _ (by omega)]

/-- One-step unfolding of `flatten`. -/
theorem flatten_eq (e : XmlElem) (path : String) :
    flatten e path =
      (path ++ "/" ++ strip_ns e.tag, xml_to_canonical e) ::
        ((sortByBool (fun a b => strLeB (xml_to_canonical a) (xml_to_canonical b))
            e.children).flatMap
          (fun c => flatten c (path ++ "/" ++ strip_ns e.tag))) := by
  have hpos : 0 < xmlSize e := xmlSize_pos e
  obtain ⟨s, hs⟩ : ∃ s, xmlSize e = s + 1 := ⟨xmlSize e - 1, by omega⟩
  unfold flatten
  rw [hs]
  simp only [flattenFuel]
  congr 1
  apply flatMap_congr_mem
  intro c hc
  have hcsz : xmlSize c < xmlSize e :=
    xmlSize_lt_of_mem_children (mem_sortByBool.mp hc)
  exact flattenFuel_eq_flatten s c _ (by omega)

/-- The recursive fingerprint, re-stated through the named part lists. -/
theorem inline_element_fingerprint_eq (e : XmlElem) :
    inline_element_fingerprint e =
      String.intercalate "|"
        ((getAttr e "Type").getD "" ::
          (sortStr (prop_parts_of e) ++ sortStr (rel_parts_of e) ++
            sortStr (ann_parts_of e))) := by
  unfold inline_element_fingerprint
  rfl

/-! ## Claims -/



theorem resolvedRefSpec_some {e : XmlElem} {r s : String}
    (h : resolvedRefSpec e r = some s) :
    get_ref_name e r = some s ∧ truthy (get_ref_name e r) = true := by
  unfold resolvedRefSpec at h
  cases hg : get_ref_name e r with
  | none => rw [hg] at h; simp at h
  | some t =>
    rw [hg] at h
    dsimp only at h
    cases ht : t.data.isEmpty with
    | true => rw [ht] at h; simp at h
    | false =>
      rw [ht] at h
      simp only [Bool.false_eq_true, if_false, Option.some.injEq] at h
      subst h
      exact ⟨rfl, by simp [truthy, ht]⟩

theorem resolvedRefSpec_none {e : XmlElem} {r : String}
    (h : resolvedRefSpec e r = none) : truthy (get_ref_name e r) = false := by
  unfold resolvedRefSpec at h
  cases hg : get_ref_name e r with
  | none => simp [truthy]
  | some t =>
    rw [hg] at h
    dsimp only at h
    cases ht : t.data.isEmpty with
    | true => simp [truthy, ht]
    | false =>
      rw [ht] at h
      simp at h

/-- Unfolding of `element_key` on an element without a `Name` attribute. -/
theorem element_key_unnamed (e : XmlElem) (hn : getAttr e "Name" = none) :
    element_key e =
      (if truthy (get_ref_name e "DefiningTable") && truthy (get_ref_name e "ForColumn") then
        ElementKey.pair (getAttr e "Type")
          ("DefiningTable=" ++ pyStrOpt (get_ref_name e "DefiningTable") ++
            ",ForColumn=" ++ pyStrOpt (get_ref_name e "ForColumn"))
      else if truthy (get_ref_name e "DefiningTable") &&
          truthy (get_ref_name e "DefiningColumn") then
        ElementKey.pair (getAttr e "Type")
          ("DefiningTable=" ++ pyStrOpt (get_ref_name e "DefiningTable") ++
            ",DefiningColumn=" ++ pyStrOpt (get_ref_name e "DefiningColumn"))
      else if truthy (get_ref_name e "DefiningTable") then
        ElementKey.pair (getAttr e "Type")
          ("DefiningTable=" ++ pyStrOpt (get_ref_name e "DefiningTable"))
      else ElementKey.single (getAttr e "Type")) := by
  unfold element_key
  rw [hn]

/-- C1: `element_key` is total (it is a Lean function) and resolves
identity in the claimed fixed order: a present `Name` attribute wins;
otherwise resolved `DefiningTable`+`ForColumn`, then
`DefiningTable`+`DefiningColumn`, then `DefiningTable` alone, then the
bare-type singleton. -/
theorem claim_C1 (e : XmlElem) :
    (∀ n, getAttr e "Name" = some n →
      element_key e = .pair (getAttr e "Type") n) ∧
    (getAttr e "Name" = none →
      (∀ dt fc, resolvedRefSpec e "DefiningTable" = some dt →
        resolvedRefSpec e "ForColumn" = some fc →
        element_key e = .pair (getAttr e "Type")
          ("DefiningTable=" ++ dt ++ ",ForColumn=" ++ fc)) ∧
      (∀ dt dc, resolvedRefSpec e "DefiningTable" = some dt →
        resolvedRefSpec e "ForColumn" = none →
        resolvedRefSpec e "DefiningColumn" = some dc →
        element_key e = .pair (getAttr e "Type")
          ("DefiningTable=" ++ dt ++ ",DefiningColumn=" ++ dc)) ∧
      (∀ dt, resolvedRefSpec e "DefiningTable" = some dt →
        resolvedRefSpec e "ForColumn" = none →
        resolvedRefSpec e "DefiningColumn" = none →
        element_key e = .pair (getAttr e "Type") ("DefiningTable=" ++ dt)) ∧
      (resolvedRefSpec e "DefiningTable" = none →
        element_key e = .single (getAttr e "Type"))) := by
  constructor
  · intro n hn
    simp [element_key, hn]
  · intro hn
    refine ⟨?_, ?_, ?_, ?_⟩
    · intro dt fc hdt hfc
      obtain ⟨hg1, ht1⟩ := resolvedRefSpec_some hdt
      obtain ⟨hg2, ht2⟩ := resolvedRefSpec_some hfc
      rw [element_key_unnamed e hn, ht1, ht2, hg1, hg2]
      simp [pyStrOpt]
    · intro dt dc hdt hfc hdc
      obtain ⟨hg1, ht1⟩ := resolvedRefSpec_some hdt
      have ht2 := resolvedRefSpec_none hfc
      obtain ⟨hg3, ht3⟩ := resolvedRefSpec_some hdc
      rw [element_key_unnamed e hn, ht1, ht2, ht3, hg1, hg3]
      simp [pyStrOpt]
    · intro dt hdt hfc hdc
      obtain ⟨hg1, ht1⟩ := resolvedRefSpec_some hdt
      have ht2 := resolvedRefSpec_none hfc
      have ht3 := resolvedRefSpec_none hdc
      rw [element_key_unnamed e hn, ht1, ht2, ht3, hg1]
      simp [pyStrOpt]
    · intro hdt
      have ht1 := resolvedRefSpec_none hdt
      rw [element_key_unnamed e hn, ht1]
      simp

theorem claim_C1_witness :
    element_key
        (XmlElem.mk "Element" [("Type", "SqlTable"), ("Name", "[dbo].[Foo]")] none []) =
      ElementKey.pair (some "SqlTable") "[dbo].[Foo]" ∧
    element_key
        (XmlElem.mk "Element" [("Type", "SqlDefaultConstraint")] none
          [XmlElem.mk "Relationship" [("Name", "DefiningTable")] none
            [XmlElem.mk "Entry" [] none
              [XmlElem.mk "References" [("Name", "[dbo].[T]")] none []]],
          XmlElem.mk "Relationship" [("Name", "ForColumn")] none
            [XmlElem.mk "Entry" [] none
              [XmlElem.mk "References" [("Name", "[dbo].[T].[c]")] none []]]]) =
      ElementKey.pair (some "SqlDefaultConstraint")
        "DefiningTable=[dbo].[T],ForColumn=[dbo].[T].[c]" := by
  constructor
  · have h := (claim_C1
      (XmlElem.mk "Element" [("Type", "SqlTable"), ("Name", "[dbo].[Foo]")] none [])).1
      "[dbo].[Foo]" (by decide)
    rw [h]
    decide
  · have h := ((claim_C1
      (XmlElem.mk "Element" [("Type", "SqlDefaultConstraint")] none
        [XmlElem.mk "Relationship" [("Name", "DefiningTable")] none
          [XmlElem.mk "Entry" [] none
            [XmlElem.mk "References" [("Name", "[dbo].[T]")] none []]],
        XmlElem.mk "Relationship" [("Name", "ForColumn")] none
          [XmlElem.mk "Entry" [] none
            [XmlElem.mk "References" [("Name", "[dbo].[T].[c]")] none []]]])).2
      (by decide)).1 "[dbo].[T]" "[dbo].[T].[c]" (by decide) (by decide)
    rw [h]
    decide

/-- C2: the exit code is `0` exactly when every tracked artifact other
than `Origin.xml` has status `ok` and the model/header comparison (when
performed) found a clean header and empty missing/extra/difference
lists; it is `1` otherwise, and the `Origin.xml` entry never influences
it. -/
theorem claim_C2 :
    (∀ (fr : List (String × Status)) (mr : Option ModelResults),
      (exit_code fr mr = 0 ↔
        (∀ p ∈ fr, p.1 ≠ "Origin.xml" → p.2 = Status.ok) ∧
        (∀ r, mr = some r → r.header.1 = Status.ok ∧
          r.elements.missing_in_rust = [] ∧ r.elements.extra_in_rust = [] ∧
          r.elements.differences = [])) ∧
      (exit_code fr mr = 0 ∨ exit_code fr mr = 1)) ∧
    (∀ (fr : List (String × Status)) (mr : Option ModelResults) (s : Status),
      exit_code (("Origin.xml", s) :: fr) mr = exit_code fr mr) := by
  constructor
  · intro fr mr
    have hiff : exit_code fr mr = 0 ↔ has_diffs fr mr = false := by
      unfold exit_code
      split <;> simp_all
    constructor
    · rw [hiff]
      unfold has_diffs
      rw [Bool.or_eq_false_iff]
      constructor
      · rintro ⟨h1, h2⟩
        refine ⟨fun p hp hpo => ?_, fun r hr => ?_⟩
        · have hx := List.any_eq_false.mp h1 p hp
          simp only [decide_eq_true_eq] at hx
          push_neg at hx
          exact hx hpo
        · rw [hr] at h2
          dsimp only at h2
          simp only [decide_eq_false_iff_not] at h2
          push_neg at h2
          exact ⟨h2.1, h2.2.1, h2.2.2.1, h2.2.2.2⟩
      · rintro ⟨h1, h2⟩
        constructor
        · apply List.any_eq_false.mpr
          intro p hp
          simp only [decide_eq_true_eq]
          rintro ⟨c1, c2⟩
          exact c2 (h1 p hp c1)
        · cases mr with
          | none => rfl
          | some r =>
            have hr := h2 r rfl
            dsimp only
            simp only [decide_eq_false_iff_not]
            push_neg
            exact ⟨hr.1, hr.2.1, hr.2.2.1, hr.2.2.2⟩
    · unfold exit_code
      split <;> simp
  · intro fr mr s
    unfold exit_code has_diffs
    have h0 : (decide (¬"Origin.xml" = "Origin.xml" ∧ ¬s = Status.ok)) = false := by
      simp [decide_eq_false_iff_not]
    simp only [List.any_cons, h0, Bool.false_or]

theorem claim_C2_witness :
    exit_code [("Origin.xml", Status.different)] none = 0 ∧
    exit_code (("Origin.xml", Status.different) ::
        [("model.xml", Status.missing_in_rust)]) none =
      exit_code [("model.xml", Status.missing_in_rust)] none := by
  constructor
  · exact ((claim_C2.1 [("Origin.xml", Status.different)] none).1).mpr
      ⟨by decide, fun r hr => by cases hr⟩
  · exact claim_C2.2 [("model.xml", Status.missing_in_rust)] none Status.different

set_option maxRecDepth 10000 in
/-- C3 (evaluation at the failing input): the claimed invariance of the
simple-XML comparison under sibling reordering fails when two siblings
share tag, attributes and text but differ in their descendants — the
children are sorted by their own canonical string only, so such
siblings keep their document order.  Comparing a tree against itself is
`ok`, and swapping two such siblings in one input flips the status to
`different`, although the swapped children lists are permutations of
each other. -/
theorem claim_C3_eval :
    compare_simple_xml
        (some (XmlElem.mk "r" [] none
          [XmlElem.mk "X" [] none [XmlElem.mk "B" [] none []],
            XmlElem.mk "X" [] none [XmlElem.mk "C" [] none []]]))
        (some (XmlElem.mk "r" [] none
          [XmlElem.mk "X" [] none [XmlElem.mk "B" [] none []],
            XmlElem.mk "X" [] none [XmlElem.mk "C" [] none []]])) =
      some Status.ok ∧
    compare_simple_xml
        (some (XmlElem.mk "r" [] none
          [XmlElem.mk "X" [] none [XmlElem.mk "C" [] none []],
            XmlElem.mk "X" [] none [XmlElem.mk "B" [] none []]]))
        (some (XmlElem.mk "r" [] none
          [XmlElem.mk "X" [] none [XmlElem.mk "B" [] none []],
            XmlElem.mk "X" [] none [XmlElem.mk "C" [] none []]])) =
      some Status.different ∧
    List.Perm
      [XmlElem.mk "X" [] none [XmlElem.mk "C" [] none []],
        XmlElem.mk "X" [] none [XmlElem.mk "B" [] none []]]
      [XmlElem.mk "X" [] none [XmlElem.mk "B" [] none []],
        XmlElem.mk "X" [] none [XmlElem.mk "C" [] none []]] :=
  ⟨by decide, by decide, List.Perm.swap _ _ _⟩

/-- C4: two inline elements with the same `Type` attribute whose
property parts, relationship-entry parts and annotation parts agree up
to permutation (i.e. the same multisets, in any serialization order)
fingerprint identically, because every part list is sorted before
joining. -/
theorem claim_C4 (e1 e2 : XmlElem)
    (ht : getAttr e1 "Type" = getAttr e2 "Type")
    (hp : List.Perm (prop_parts_of e1) (prop_parts_of e2))
    (hr : List.Perm (rel_parts_of e1) (rel_parts_of e2))
    (ha : List.Perm (ann_parts_of e1) (ann_parts_of e2)) :
    inline_element_fingerprint e1 = inline_element_fingerprint e2 := by
  rw [inline_element_fingerprint_eq e1, inline_element_fingerprint_eq e2, ht,
    sortStr_eq_of_perm hp, sortStr_eq_of_perm hr, sortStr_eq_of_perm ha]

theorem claim_C4_witness :
    (let E1 := XmlElem.mk "Element" [("Type", "SqlIndexedColumnSpecification")] none
      [XmlElem.mk "Property" [("Name", "IsAscending"), ("Value", "True")] none [],
        XmlElem.mk "Property" [("Name", "IsIncluded"), ("Value", "False")] none [],
        XmlElem.mk "Relationship" [("Name", "Column")] none
          [XmlElem.mk "Entry" [] none
            [XmlElem.mk "References" [("Name", "[dbo].[T].[a]")] none []],
            XmlElem.mk "Entry" [] none
              [XmlElem.mk "References" [("Name", "[dbo].[T].[b]")] none []]],
        XmlElem.mk "AttachedAnnotation" [("Type", "A1")] none [],
        XmlElem.mk "AttachedAnnotation" [("Type", "A2")] none []]
    let E2 := XmlElem.mk "Element" [("Type", "SqlIndexedColumnSpecification")] none
      [XmlElem.mk "AttachedAnnotation" [("Type", "A2")] none [],
        XmlElem.mk "AttachedAnnotation" [("Type", "A1")] none [],
        XmlElem.mk "Property" [("Name", "IsIncluded"), ("Value", "False")] none [],
        XmlElem.mk "Relationship" [("Name", "Column")] none
          [XmlElem.mk "Entry" [] none
            [XmlElem.mk "References" [("Name", "[dbo].[T].[b]")] none []],
            XmlElem.mk "Entry" [] none
              [XmlElem.mk "References" [("Name", "[dbo].[T].[a]")] none []]],
        XmlElem.mk "Property" [("Name", "IsAscending"), ("Value", "True")] none []]
    getAttr E1 "Type" = getAttr E2 "Type" ∧
    List.Perm (prop_parts_of E1) (prop_parts_of E2) ∧
    List.Perm (rel_parts_of E1) (rel_parts_of E2) ∧
    List.Perm (ann_parts_of E1) (ann_parts_of E2) ∧
    inline_element_fingerprint E1 = inline_element_fingerprint E2) :=
  ⟨by decide, by decide, by decide, by decide,
    claim_C4 _ _ (by decide) (by decide) (by decide) (by decide)⟩

theorem isEmpty_false_of_mem {α : Type} {l : List α} {x : α} (h : x ∈ l) :
    l.isEmpty = false := by
  cases l with
  | nil => cases h
  | cons a t => rfl



/-- C5 (amended): when the sorted annotation lists differ AND at least
one annotation string form is exclusive to one side, the annotation
phase reports exactly the types whose per-type sublists differ, with a
count-mismatch note on differing cardinalities.  (As claimed — without
the set-difference guard — the statement is false: see the
counterexample, where the lists differ only in multiplicity.) -/
theorem claim_C5 (ea eb : XmlElem)
    (hne : get_annotations ea ≠ get_annotations eb)
    (hset : ∃ s,
      (s ∈ (get_annotations ea).map ann_tuple_str ∧
        s ∉ (get_annotations eb).map ann_tuple_str) ∨
      (s ∈ (get_annotations eb).map ann_tuple_str ∧
        s ∉ (get_annotations ea).map ann_tuple_str)) :
    ann_phase ea eb =
      ann_report_spec (get_annotations ea) (get_annotations eb) := by
  unfold ann_phase
  dsimp only
  rw [if_neg hne]
  rcases hset with ⟨s, hs | hs⟩
  · have hmem : s ∈ ((get_annotations ea).map ann_tuple_str).dedup.filter
        (fun x => decide (x ∉ ((get_annotations eb).map ann_tuple_str).dedup)) := by
      apply List.mem_filter.mpr
      refine ⟨List.mem_dedup.mpr hs.1, ?_⟩
      simp only [decide_eq_true_eq]
      intro hc
      exact hs.2 (List.mem_dedup.mp hc)
    rw [isEmpty_false_of_mem hmem]
    rfl
  · have hmem : s ∈ ((get_annotations eb).map ann_tuple_str).dedup.filter
        (fun x => decide (x ∉ ((get_annotations ea).map ann_tuple_str).dedup)) := by
      apply List.mem_filter.mpr
      refine ⟨List.mem_dedup.mpr hs.1, ?_⟩
      simp only [decide_eq_true_eq]
      intro hc
      exact hs.2 (List.mem_dedup.mp hc)
    rw [isEmpty_false_of_mem hmem]
    simp only [Bool.not_false, Bool.or_true, if_true]
    rfl

/-- C5 counterexample, refuting the claim as stated: one side holds two
copies of an annotation, the other one copy.  The sorted annotation
lists differ, the per-type sublists differ and the counts differ, yet
the annotation phase (and the whole element diff) report nothing,
because the string-form sets are equal. -/
theorem claim_C5_counterexample :
    (let ea := XmlElem.mk "Element" [("Type", "T")] none
      [XmlElem.mk "AttachedAnnotation" [("Type", "A")] none [],
        XmlElem.mk "AttachedAnnotation" [("Type", "A")] none []]
    let eb := XmlElem.mk "Element" [("Type", "T")] none
      [XmlElem.mk "AttachedAnnotation" [("Type", "A")] none []]
    get_annotations ea ≠ get_annotations eb ∧
    (get_annotations ea).filter (fun a => a.1 == "A") ≠
      (get_annotations eb).filter (fun a => a.1 == "A") ∧
    ((get_annotations ea).filter (fun a => a.1 == "A")).length ≠
      ((get_annotations eb).filter (fun a => a.1 == "A")).length ∧
    ann_phase ea eb = [] ∧
    diff_element ea eb = []) := by
  decide

theorem claim_C5_witness :
    (let ea := XmlElem.mk "Element" [("Type", "T")] none
      [XmlElem.mk "AttachedAnnotation" [("Type", "A")] none
        [XmlElem.mk "Property" [("Name", "a"), ("Value", "1")] none []]]
    let eb := XmlElem.mk "Element" [("Type", "T")] none
      [XmlElem.mk "AttachedAnnotation" [("Type", "A")] none
        [XmlElem.mk "Property" [("Name", "a"), ("Value", "2")] none []]]
    ann_phase ea eb =
      ann_report_spec (get_annotations ea) (get_annotations eb)) :=
  claim_C5 _ _ (by decide)
    ⟨"(\x27A\x27, [(\x27a\x27, \x271\x27)])", Or.inl ⟨by decide, by decide⟩⟩

/-- The relationship phase for a name present on both sides with
unequal entry lists reaches the set-difference branch. -/
theorem rel_diff_lines_for_both
    {rels_a rels_b : List (Option String × List RelEntry)}
    {name : Option String} {la lb : List RelEntry}
    (hA : dictGet rels_a name = some la) (hB : dictGet rels_b name = some lb)
    (hne : la ≠ lb) :
    rel_diff_lines_for rels_a rels_b name =
      (let set_a := (la.map entryStr).dedup
      let set_b := (lb.map entryStr).dedup
      let only_rust := set_a.filter (fun s => decide (s ∉ set_b))
      let only_dotnet := set_b.filter (fun s => decide (s ∉ set_a))
      if !only_rust.isEmpty || !only_dotnet.isEmpty then
        ["    Relationship \"" ++ pyStrOpt name ++ "\": " ++
          toString only_dotnet.length ++ " only in dotnet, " ++
          toString only_rust.length ++ " only in rust"]
      else []) := by
  unfold rel_diff_lines_for
  rw [hA, hB]
  dsimp only [Option.getD]
  rw [if_neg hne]
  have hcb : dictContains rels_b name = true := by
    unfold dictContains; rw [hB]; rfl
  have hca : dictContains rels_a name = true := by
    unfold dictContains; rw [hA]; rfl
  rw [hcb, hca]
  have hfalse : ¬(true = false) := by simp
  rw [if_neg hfalse, if_neg hfalse]

/-- C6: a relationship present on both sides is compared as the set of
its entries' string forms — permuting entries, collapsing duplicates, or
changing multiplicities alone yields no difference entry; when the sets
differ, exactly one entry is emitted carrying the counts of string
forms exclusive to each side. -/
theorem claim_C6 (rels_a rels_b : List (Option String × List RelEntry))
    (name : Option String) (la lb : List RelEntry)
    (hA : dictGet rels_a name = some la) (hB : dictGet rels_b name = some lb) :
    (List.Perm la lb → rel_diff_lines_for rels_a rels_b name = []) ∧
    ((∀ s, s ∈ la.map entryStr ↔ s ∈ lb.map entryStr) →
      rel_diff_lines_for rels_a rels_b name = []) ∧
    ((∃ s, (s ∈ la.map entryStr ∧ s ∉ lb.map entryStr) ∨
        (s ∈ lb.map entryStr ∧ s ∉ la.map entryStr)) →
      rel_diff_lines_for rels_a rels_b name =
        ["    Relationship \"" ++ pyStrOpt name ++ "\": " ++
          toString (((lb.map entryStr).dedup).filter
            (fun s => decide (s ∉ (la.map entryStr).dedup))).length ++
          " only in dotnet, " ++
          toString (((la.map entryStr).dedup).filter
            (fun s => decide (s ∉ (lb.map entryStr).dedup))).length ++
          " only in rust"]) := by
  have main2 : (∀ s, s ∈ la.map entryStr ↔ s ∈ lb.map entryStr) →
      rel_diff_lines_for rels_a rels_b name = [] := by
    intro hiff
    by_cases heq : la = lb
    · unfold rel_diff_lines_for
      rw [hA, hB]
      dsimp only [Option.getD]
      rw [if_pos heq]
    · rw [rel_diff_lines_for_both hA hB heq]
      have h1 : (la.map entryStr).dedup.filter
          (fun s => decide (s ∉ (lb.map entryStr).dedup)) = [] := by
        apply List.filter_eq_nil_iff.mpr
        intro s hs
        simp only [decide_eq_true_eq, Decidable.not_not]
        exact List.mem_dedup.mpr ((hiff s).mp (List.mem_dedup.mp hs))
      have h2 : (lb.map entryStr).dedup.filter
          (fun s => decide (s ∉ (la.map entryStr).dedup)) = [] := by
        apply List.filter_eq_nil_iff.mpr
        intro s hs
        simp only [decide_eq_true_eq, Decidable.not_not]
        exact List.mem_dedup.mpr ((hiff s).mpr (List.mem_dedup.mp hs))
      dsimp only
      rw [h1, h2]
      rfl
  refine ⟨?_, main2, ?_⟩
  · intro hperm
    exact main2 (fun s => (hperm.map entryStr).mem_iff)
  · rintro ⟨s, hs | hs⟩
    · have hne : la ≠ lb := by
        rintro rfl
        exact hs.2 hs.1
      rw [rel_diff_lines_for_both hA hB hne]
      have hmem : s ∈ (la.map entryStr).dedup.filter
          (fun x => decide (x ∉ (lb.map entryStr).dedup)) := by
        apply List.mem_filter.mpr
        refine ⟨List.mem_dedup.mpr hs.1, ?_⟩
        simp only [decide_eq_true_eq]
        intro hc
        exact hs.2 (List.mem_dedup.mp hc)
      dsimp only
      rw [isEmpty_false_of_mem hmem]
      rfl
    · have hne : la ≠ lb := by
        rintro rfl
        exact hs.2 hs.1
      rw [rel_diff_lines_for_both hA hB hne]
      have hmem : s ∈ (lb.map entryStr).dedup.filter
          (fun x => decide (x ∉ (la.map entryStr).dedup)) := by
        apply List.mem_filter.mpr
        refine ⟨List.mem_dedup.mpr hs.1, ?_⟩
        simp only [decide_eq_true_eq]
        intro hc
        exact hs.2 (List.mem_dedup.mp hc)
      dsimp only
      rw [isEmpty_false_of_mem hmem]
      simp only [Bool.not_false, Bool.or_true, if_true]

theorem claim_C6_witness :
    rel_diff_lines_for
        [(some "Columns", [RelEntry.ref "[dbo].[T].[a]", RelEntry.ref "[dbo].[T].[b]"])]
        [(some "Columns", [RelEntry.ref "[dbo].[T].[b]", RelEntry.ref "[dbo].[T].[a]",
          RelEntry.ref "[dbo].[T].[a]"])]
        (some "Columns") = [] ∧
    rel_diff_lines_for
        [(some "Columns", [RelEntry.ref "[dbo].[T].[a]", RelEntry.ref "[dbo].[T].[b]"])]
        [(some "Columns", [RelEntry.ref "[dbo].[T].[b]", RelEntry.ref "[dbo].[T].[c]"])]
        (some "Columns") =
      ["    Relationship \"Columns\": 1 only in dotnet, 1 only in rust"] := by
  constructor
  · exact (claim_C6
      [(some "Columns", [RelEntry.ref "[dbo].[T].[a]", RelEntry.ref "[dbo].[T].[b]"])]
      [(some "Columns", [RelEntry.ref "[dbo].[T].[b]", RelEntry.ref "[dbo].[T].[a]",
        RelEntry.ref "[dbo].[T].[a]"])]
      (some "Columns")
      [RelEntry.ref "[dbo].[T].[a]", RelEntry.ref "[dbo].[T].[b]"]
      [RelEntry.ref "[dbo].[T].[b]", RelEntry.ref "[dbo].[T].[a]",
        RelEntry.ref "[dbo].[T].[a]"]
      (by decide) (by decide)).2.1
      (fun s => ⟨fun hs => (by decide :
          ∀ x ∈ List.map entryStr
            [RelEntry.ref "[dbo].[T].[a]", RelEntry.ref "[dbo].[T].[b]"],
            x ∈ List.map entryStr
              [RelEntry.ref "[dbo].[T].[b]", RelEntry.ref "[dbo].[T].[a]",
                RelEntry.ref "[dbo].[T].[a]"]) s hs,
        fun hs => (by decide :
          ∀ x ∈ List.map entryStr
            [RelEntry.ref "[dbo].[T].[b]", RelEntry.ref "[dbo].[T].[a]",
              RelEntry.ref "[dbo].[T].[a]"],
            x ∈ List.map entryStr
              [RelEntry.ref "[dbo].[T].[a]", RelEntry.ref "[dbo].[T].[b]"]) s hs⟩)
  · have h := (claim_C6
      [(some "Columns", [RelEntry.ref "[dbo].[T].[a]", RelEntry.ref "[dbo].[T].[b]"])]
      [(some "Columns", [RelEntry.ref "[dbo].[T].[b]", RelEntry.ref "[dbo].[T].[c]"])]
      (some "Columns")
      [RelEntry.ref "[dbo].[T].[a]", RelEntry.ref "[dbo].[T].[b]"]
      [RelEntry.ref "[dbo].[T].[b]", RelEntry.ref "[dbo].[T].[c]"]
      (by decide) (by decide)).2.2
      ⟨entryStr (RelEntry.ref "[dbo].[T].[a]"), Or.inl ⟨by decide, by decide⟩⟩
    rw [h]
    decide



/-- C7: `Disambiguator` never affects a comparison outcome.  Two
elements whose annotation nodes differ pairwise only in `Disambiguator`
produce identical `get_annotations` results (hence an empty annotation
diff phase) and identical fingerprint annotation parts (hence equal
fingerprints when the rest agrees). -/
theorem claim_C7 (ea eb : XmlElem)
    (h : List.Forall₂ sameExceptDisambiguator
      (childrenTag ea "AttachedAnnotation") (childrenTag eb "AttachedAnnotation")) :
    get_annotations ea = get_annotations eb ∧
    ann_phase ea eb = [] ∧
    ann_parts_of ea = ann_parts_of eb ∧
    (getAttr ea "Type" = getAttr eb "Type" →
      prop_parts_of ea = prop_parts_of eb →
      rel_parts_of ea = rel_parts_of eb →
      inline_element_fingerprint ea = inline_element_fingerprint eb) := by
  have hmapAll : ∀ (l1 l2 : List XmlElem),
      List.Forall₂ sameExceptDisambiguator l1 l2 →
      l1.map ann_tuple = l2.map ann_tuple := by
    intro l1 l2 hf
    induction hf with
    | nil => rfl
    | cons hrel _ ih =>
      simp only [List.map_cons, ih, List.cons.injEq, and_true]
      unfold ann_tuple
      rw [hrel.1, hrel.2]
  have hpartsAll : ∀ (l1 l2 : List XmlElem),
      List.Forall₂ sameExceptDisambiguator l1 l2 →
      l1.map annPartOf = l2.map annPartOf := by
    intro l1 l2 hf
    induction hf with
    | nil => rfl
    | cons hrel _ ih =>
      simp only [List.map_cons, ih, List.cons.injEq, and_true]
      unfold annPartOf
      rw [hrel.1, hrel.2]
  have hmap : (childrenTag ea "AttachedAnnotation").map ann_tuple =
      (childrenTag eb "AttachedAnnotation").map ann_tuple := hmapAll _ _ h
  have hparts : ann_parts_of ea = ann_parts_of eb := hpartsAll _ _ h
  have hanns : get_annotations ea = get_annotations eb := by
    unfold get_annotations
    rw [hmap]
  refine ⟨hanns, ?_, hparts, ?_⟩
  · unfold ann_phase
    dsimp only
    rw [if_pos hanns]
  · intro h1 h2 h3
    rw [inline_element_fingerprint_eq ea, inline_element_fingerprint_eq eb,
      h1, h2, h3, hparts]

theorem claim_C7_witness :
    (let ea := XmlElem.mk "Element" [("Type", "T")] none
      [XmlElem.mk "AttachedAnnotation" [("Type", "SqlAnnot1")] none
        [XmlElem.mk "Property" [("Name", "a"), ("Value", "1")] none [],
          XmlElem.mk "Property" [("Name", "Disambiguator"), ("Value", "3")] none []],
        XmlElem.mk "AttachedAnnotation" [("Type", "SqlAnnot2")] none
          [XmlElem.mk "Property" [("Name", "Disambiguator"), ("Value", "5")] none []]]
    let eb := XmlElem.mk "Element" [("Type", "T")] none
      [XmlElem.mk "AttachedAnnotation" [("Type", "SqlAnnot1")] none
        [XmlElem.mk "Property" [("Name", "a"), ("Value", "1")] none []],
        XmlElem.mk "AttachedAnnotation" [("Type", "SqlAnnot2")] none
          [XmlElem.mk "Property" [("Name", "Disambiguator"), ("Value", "9")] none []]]
    get_annotations ea = get_annotations eb ∧ ann_phase ea eb = []) := by
  have h := claim_C7
    (XmlElem.mk "Element" [("Type", "T")] none
      [XmlElem.mk "AttachedAnnotation" [("Type", "SqlAnnot1")] none
        [XmlElem.mk "Property" [("Name", "a"), ("Value", "1")] none [],
          XmlElem.mk "Property" [("Name", "Disambiguator"), ("Value", "3")] none []],
        XmlElem.mk "AttachedAnnotation" [("Type", "SqlAnnot2")] none
          [XmlElem.mk "Property" [("Name", "Disambiguator"), ("Value", "5")] none []]])
    (XmlElem.mk "Element" [("Type", "T")] none
      [XmlElem.mk "AttachedAnnotation" [("Type", "SqlAnnot1")] none
        [XmlElem.mk "Property" [("Name", "a"), ("Value", "1")] none []],
        XmlElem.mk "AttachedAnnotation" [("Type", "SqlAnnot2")] none
          [XmlElem.mk "Property" [("Name", "Disambiguator"), ("Value", "9")] none []]])
    (List.Forall₂.cons ⟨by decide, by decide⟩
      (List.Forall₂.cons ⟨by decide, by decide⟩ List.Forall₂.nil))
  exact ⟨h.1, h.2.1⟩

theorem index_go_get (k : ElementKey) : ∀ (es : List XmlElem)
    (ix : List (ElementKey × XmlElem)) (dup : List ElementKey),
    dictGet (index_elements_go ix dup es).1 k =
      (match (es.filter (fun e => decide (element_key e = k))).getLast? with
      | some e => some e
      | none => dictGet ix k) := by
  intro es
  induction es with
  | nil => intro ix dup; rfl
  | cons e rest ih =>
    intro ix dup
    unfold index_elements_go
    rw [ih]
    cases hk : decide (element_key e = k) with
    | true =>
      have hke : element_key e = k := of_decide_eq_true hk
      rw [List.filter_cons, hk]
      simp only [if_true]
      cases hfr : rest.filter (fun e => decide (element_key e = k)) with
      | nil =>
        simp only [List.getLast?_singleton]
        rw [hke, dictGet_insert_self]
        rfl
      | cons y ys =>
        rw [List.getLast?_cons_cons]
        cases hz : (y :: ys).getLast? with
        | none => simp at hz
        | some z => rfl
    | false =>
      have hke : element_key e ≠ k := by
        intro hc
        rw [hc] at hk
        simp at hk
      rw [List.filter_cons, hk]
      simp only [Bool.false_eq_true, if_false]
      cases hfr : rest.filter (fun e => decide (element_key e = k)) with
      | nil =>
        simp only [List.getLast?_nil]
        exact dictGet_insert_ne ix k (element_key e) e hke
      | cons y ys => rfl

theorem index_go_dup_mono {k : ElementKey} : ∀ (es : List XmlElem)
    (ix : List (ElementKey × XmlElem)) (dup : List ElementKey),
    k ∈ dup → k ∈ (index_elements_go ix dup es).2 := by
  intro es
  induction es with
  | nil => intro ix dup h; exact h
  | cons e rest ih =>
    intro ix dup h
    unfold index_elements_go
    apply ih
    cases dictContains ix (element_key e) with
    | true => exact List.mem_append_left _ h
    | false => exact h

theorem index_go_dup_of_contains {k : ElementKey} : ∀ (es : List XmlElem)
    (ix : List (ElementKey × XmlElem)) (dup : List ElementKey),
    dictContains ix k = true →
    1 ≤ es.countP (fun e => decide (element_key e = k)) →
    k ∈ (index_elements_go ix dup es).2 := by
  intro es
  induction es with
  | nil => intro ix dup _ hc; simp [List.countP_nil] at hc
  | cons e rest ih =>
    intro ix dup hix hc
    unfold index_elements_go
    dsimp only
    cases hk : decide (element_key e = k) with
    | true =>
      have hke : element_key e = k := of_decide_eq_true hk
      rw [hke, hix]
      exact index_go_dup_mono rest _ _
        (List.mem_append_right _ (List.mem_singleton.mpr rfl))
    | false =>
      rw [List.countP_cons, hk] at hc
      simp only [Bool.false_eq_true, if_false, Nat.add_zero] at hc
      have hix' : dictContains (dictInsert ix (element_key e) e) k = true := by
        unfold dictContains
        rw [dictGet_insert_ne ix k (element_key e) e (by
          intro hcq; rw [hcq] at hk; simp at hk)]
        exact hix
      cases dictContains ix (element_key e) with
      | true => exact ih _ _ hix' hc
      | false => exact ih _ _ hix' hc

theorem index_go_dup_of_two {k : ElementKey} : ∀ (es : List XmlElem)
    (ix : List (ElementKey × XmlElem)) (dup : List ElementKey),
    2 ≤ es.countP (fun e => decide (element_key e = k)) →
    k ∈ (index_elements_go ix dup es).2 := by
  intro es
  induction es with
  | nil => intro ix dup hc; simp [List.countP_nil] at hc
  | cons e rest ih =>
    intro ix dup hc
    unfold index_elements_go
    dsimp only
    cases hk : decide (element_key e = k) with
    | true =>
      have hke : element_key e = k := of_decide_eq_true hk
      rw [List.countP_cons, hk] at hc
      simp only [if_true] at hc
      apply index_go_dup_of_contains rest _ _
      · unfold dictContains
        rw [hke, dictGet_insert_self]
        rfl
      · omega
    | false =>
      rw [List.countP_cons, hk] at hc
      simp only [Bool.false_eq_true, if_false, Nat.add_zero] at hc
      exact ih _ _ hc

/-- C9: duplicate identity keys are tolerated.  Indexing is
last-write-wins (the index maps a key to the last element carrying it);
a key occurring at least twice is recorded as a duplicate; any
duplicates yield warning lines on the diagnostic stream; and the
comparison results — hence the exit code — depend only on the final
indexes and headers, not on the duplicate lists. -/
theorem claim_C9 :
    (∀ (es : List XmlElem) (k : ElementKey),
      dictGet (index_elements es).1 k =
        (es.filter (fun e => decide (element_key e = k))).getLast?) ∧
    (∀ (es : List XmlElem) (k : ElementKey),
      2 ≤ es.countP (fun e => decide (element_key e = k)) →
      k ∈ (index_elements es).2) ∧
    (∀ (da db : List ElementKey), da ≠ [] ∨ db ≠ [] →
      stderr_warning_lines da db ≠ []) ∧
    (∀ (ra ra' rb : XmlElem) (ea ea' : List XmlElem),
      modelElemsOf ra = some ea → modelElemsOf ra' = some ea' →
      (index_elements ea).1 = (index_elements ea').1 →
      findTag ra "Header" = findTag ra' "Header" →
      compare_model_xml ra rb = compare_model_xml ra' rb) ∧
    (∀ (rb rb' ra : XmlElem) (eb eb' : List XmlElem),
      modelElemsOf rb = some eb → modelElemsOf rb' = some eb' →
      (index_elements eb).1 = (index_elements eb').1 →
      findTag rb "Header" = findTag rb' "Header" →
      compare_model_xml ra rb = compare_model_xml ra rb') := by
  refine ⟨?_, ?_, ?_, ?_, ?_⟩
  · intro es k
    unfold index_elements
    rw [index_go_get k es [] []]
    cases hfr : (es.filter (fun e => decide (element_key e = k))).getLast? with
    | none => rfl
    | some z => rfl
  · intro es k hc
    exact index_go_dup_of_two es [] [] hc
  · intro da db h
    unfold stderr_warning_lines
    rcases h with h | h
    · cases da with
      | nil => exact absurd rfl h
      | cons x xs => simp
    · cases db with
      | nil => exact absurd rfl h
      | cons x xs =>
        cases da with
        | nil => simp
        | cons y ys => simp
  · intro ra ra' rb ea ea' hma hma' h1 h2
    unfold compare_model_xml
    rw [hma, hma']
    cases hmb : modelElemsOf rb with
    | none => rfl
    | some eb =>
      dsimp only
      rw [h1, h2]
  · intro rb rb' ra eb eb' hmb hmb' h1 h2
    unfold compare_model_xml
    rw [hmb, hmb']
    cases hma : modelElemsOf ra with
    | none => rfl
    | some ea =>
      dsimp only
      rw [h1, h2]

theorem claim_C9_witness :
    (let dupTbl := XmlElem.mk "Element" [("Type", "SqlTable"), ("Name", "[dbo].[A]")] none []
    let otherTbl := XmlElem.mk "Element" [("Type", "SqlTable"), ("Name", "[dbo].[A]")] none
      [XmlElem.mk "Property" [("Name", "IsAnsiNullsOn"), ("Value", "True")] none []]
    dictGet (index_elements [dupTbl, otherTbl]).1
        (ElementKey.pair (some "SqlTable") "[dbo].[A]") = some otherTbl ∧
    ElementKey.pair (some "SqlTable") "[dbo].[A]" ∈ (index_elements [dupTbl, otherTbl]).2 ∧
    stderr_warning_lines [ElementKey.pair (some "SqlTable") "[dbo].[A]"] [] ≠ []) := by
  refine ⟨?_, ?_, ?_⟩
  · rw [claim_C9.1 _ (ElementKey.pair (some "SqlTable") "[dbo].[A]")]
    rfl
  · exact claim_C9.2.1 _ _ (by decide)
  · exact claim_C9.2.2.1 _ [] (Or.inl (by decide))

/-- C10: a `Property` node with neither a `Value` attribute nor a
`Value` child is recorded with value `None`, which Python's `dict.get`
makes indistinguishable from the property being absent — so the
property phase emits no difference entry for that name when the other
side lacks the property entirely (in either direction). -/
theorem claim_C10 :
    (∀ (prop : XmlElem), getAttr prop "Value" = none → findTag prop "Value" = none →
      propValue prop = none) ∧
    (∀ (props_a props_b : List (Option String × Option String)) (name : Option String),
      dictGet props_a name = some none → dictGet props_b name = none →
      prop_diff_lines_for props_a props_b name = []) ∧
    (∀ (props_a props_b : List (Option String × Option String)) (name : Option String),
      dictGet props_a name = none → dictGet props_b name = some none →
      prop_diff_lines_for props_a props_b name = []) := by
  refine ⟨?_, ?_, ?_⟩
  · intro prop h1 h2
    unfold propValue
    rw [h1, h2]
  · intro props_a props_b name hA hB
    unfold prop_diff_lines_for pyGet
    rw [hA, hB]
    rfl
  · intro props_a props_b name hA hB
    unfold prop_diff_lines_for pyGet
    rw [hA, hB]
    rfl

theorem claim_C10_witness :
    propValue (XmlElem.mk "Property" [("Name", "IsMemoryOptimized")] none []) = none ∧
    prop_diff_lines_for
        (get_properties (XmlElem.mk "Element" [("Type", "T")] none
          [XmlElem.mk "Property" [("Name", "IsMemoryOptimized")] none []]))
        (get_properties (XmlElem.mk "Element" [("Type", "T")] none []))
        (some "IsMemoryOptimized") = [] ∧
    diff_element
        (XmlElem.mk "Element" [("Type", "T")] none
          [XmlElem.mk "Property" [("Name", "IsMemoryOptimized")] none []])
        (XmlElem.mk "Element" [("Type", "T")] none []) = [] := by
  refine ⟨claim_C10.1 _ (by decide) rfl, ?_, by decide⟩
  exact claim_C10.2.1 _ _ _ (by decide) (by decide)

/-! ### Reflexivity of the comparison (for C8) -/

end CompareDacpacs
